import Mathlib

/-!
# Verification of the b2bua repository

Shallow embedding of the Go sources of the `b2bua` repository:

* `b2bua/registry/registry.go` — the `ContactInstance` record and the
  `Registry` interface;
* the in-memory registry implementation (`MemoryRegistry`): `AddAor`,
  `RemoveAor`, `AorIsRegistered`, `UpdateContact`, `RemoveContact`,
  `GetContacts`, `HandleConnectionError` and the internal `findInstances`
  helper;
* `b2bua/b2bua/b2bua.go` — the `B2BCall` pair, the active-call list with
  `findCall`/`removeCall`, the `InviteStateHandler` reactions
  (InviteReceived / Confirmed / terminal states) and `handleRegister`.

Go maps are modelled as association lists with a fixed iteration order
(keys unique in every reachable state); this fixes one serialization of
Go's unspecified map iteration order.  `sip.Uri` is modelled by its user
part and host part; `Uri.Equals` (full-URI equality) is equality of the
structure, `Uri.User()` is the `user` field.  Sessions are opaque handles
compared by identity, modelled as natural numbers.  Side effects on the
external session layer (Provisional / Accept / Reject / End / Invite) are
modelled as an emitted list of `SipAction`s.
-/

set_option autoImplicit false

/-- `sip.Uri`, reduced to the two components the code inspects:
`User()` (the user part) and the rest of the URI (host), so that
`Equals` is full equality of the pair. -/
structure Uri where
  user : String
  host : String
  deriving DecidableEq, Repr

/-- `registry.ContactInstance` (registry.go lines 9-16). -/
structure ContactInstance where
  contact : String
  regExpires : Nat
  lastUpdated : Nat
  source : String
  userAgent : String
  transport : String
  deriving DecidableEq, Repr

/-- The per-AOR contact map `map[string]*ContactInstance`, keyed by
`ContactInstance.Source`, as an association list. -/
abbrev InstList := List (String × ContactInstance)

/-- `MemoryRegistry.aors : map[sip.Uri]map[string]*ContactInstance`,
as an association list. -/
abbrev RegState := List (Uri × InstList)

/-- Go map assignment `m[src] = inst`: overwrite the existing key in
place, otherwise add the pair (modelled at the end of the list). -/
def upsert : InstList → String → ContactInstance → InstList
  | [], src, inst => [(src, inst)]
  | (s, i) :: rest, src, inst =>
      if s = src then (src, inst) :: rest else (s, i) :: upsert rest src inst

/-- `findInstances` (memory registry, lines 146-153): scan the map and
return the instance map of the first entry whose key has the same
user part (`key.User() == aor.User()`); `none` models the
`not found instances` error. -/
def findInstancesGo : RegState → Uri → Option InstList
  | [], _ => none
  | (k, cis) :: rest, aor =>
      if k.user = aor.user then some cis else findInstancesGo rest aor

/-- `MemoryRegistry.AddAor` (lines 26-39): if `findInstances` matches an
entry by user part, upsert the instance into that entry keyed by its
source; otherwise create a fresh entry keyed by the full `aor`. -/
def addAorGo : RegState → Uri → ContactInstance → RegState
  | [], aor, inst => [(aor, [(inst.source, inst)])]
  | (k, cis) :: rest, aor, inst =>
      if k.user = aor.user then (k, upsert cis inst.source inst) :: rest
      else (k, cis) :: addAorGo rest aor inst

/-- The `for key := range aors; if key.Equals(aor) then delete + break`
pattern (used by `RemoveAor` and the empty-entry cleanup inside
`RemoveContact`): erase the first entry whose key equals `aor`
under full-URI equality. -/
def eraseKeyEq : RegState → Uri → RegState
  | [], _ => []
  | (k, cis) :: rest, aor => if k = aor then rest else (k, cis) :: eraseKeyEq rest aor

/-- `MemoryRegistry.RemoveAor` (lines 42-53). -/
def removeAorGo (reg : RegState) (aor : Uri) : RegState :=
  eraseKeyEq reg aor

/-- The `findInstances`-then-mutate pattern shared by `UpdateContact` and
`RemoveContact`: rewrite the instance map of the first user-part match
through `f`, returning the rewritten map and the new registry, or
`none` when no entry matches. -/
def updateFirstUser : RegState → Uri → (InstList → InstList) → Option (InstList × RegState)
  | [], _, _ => none
  | (k, cis) :: rest, aor, f =>
      if k.user = aor.user then some (f cis, (k, f cis) :: rest)
      else
        match updateFirstUser rest aor f with
        | none => none
        | some (c, r) => some (c, (k, cis) :: r)

/-- Go map deletion `delete(m, src)`: drop the entry with key `src`
(the first one, keys being unique in a map). -/
def eraseSrc : InstList → String → InstList
  | [], _ => []
  | (s, i) :: rest, src => if s = src then rest else (s, i) :: eraseSrc rest src

/-- `MemoryRegistry.UpdateContact` (lines 65-76).  The boolean is `true`
for a `nil` error and `false` for the `not found` error. -/
def updateContactGo (reg : RegState) (aor : Uri) (inst : ContactInstance) : RegState × Bool :=
  match updateFirstUser reg aor (fun cis => upsert cis inst.source inst) with
  | none => (reg, false)
  | some (_, reg1) => (reg1, true)

/-- `MemoryRegistry.RemoveContact` (lines 79-99): find the entry by user
part; delete the instance keyed by `inst.Source`; if the instance map
became empty, additionally erase the first entry whose key equals
`aor` under full-URI equality.  The boolean is `true` for a `nil`
error and `false` for the `not found` error. -/
def removeContactGo (reg : RegState) (aor : Uri) (inst : ContactInstance) : RegState × Bool :=
  match updateFirstUser reg aor (fun cis => eraseSrc cis inst.source) with
  | none => (reg, false)
  | some (cis, reg1) => if cis = [] then (eraseKeyEq reg1 aor, true) else (reg1, true)

/-- Whether the instance map holds a contact keyed by `src` (the inner
loop of `HandleConnectionError` hitting `source == connError.Source`). -/
def hasSrc : InstList → String → Bool
  | [], _ => false
  | (s, _) :: rest, src => if s = src then true else hasSrc rest src

/-- `MemoryRegistry.HandleConnectionError` (lines 102-123): iterate over
the entries; in each entry delete the instance keyed by the lost
source (at most one, keys being unique); if the entry's instance map
is then empty, delete the whole entry and `break` out of the scan.
Returns the mutated registry and the accumulated `result` flag. -/
def hceLoop (src : String) : RegState → RegState × Bool
  | [] => ([], false)
  | (k, cis) :: rest =>
      let cis2 := eraseSrc cis src
      if cis2 = [] then (rest, hasSrc cis src)
      else
        let res := hceLoop src rest
        ((k, cis2) :: res.1, hasSrc cis src || res.2)

/-- `MemoryRegistry.GetContacts` (lines 126-135): `some cis` models the
`(instances, true)` return, `none` the `(nil, false)` return. -/
def getContactsGo (reg : RegState) (aor : Uri) : Option InstList :=
  findInstancesGo reg aor

/-- The registry operations named by the specification, acting on a
`MemoryRegistry`. -/
inductive RegOp where
  | addOrUpdate : Uri → ContactInstance → RegOp
  | remove : Uri → RegOp
  | updateContact : Uri → ContactInstance → RegOp
  | removeContact : Uri → ContactInstance → RegOp
  | connLoss : String → RegOp
  deriving DecidableEq, Repr

/-- State effect of one registry operation. -/
def execOp (reg : RegState) : RegOp → RegState
  | RegOp.addOrUpdate aor inst => addAorGo reg aor inst
  | RegOp.remove aor => removeAorGo reg aor
  | RegOp.updateContact aor inst => (updateContactGo reg aor inst).1
  | RegOp.removeContact aor inst => (removeContactGo reg aor inst).1
  | RegOp.connLoss src => (hceLoop src reg).1

/-- State after a sequence of registry operations. -/
def execOps (reg : RegState) (ops : List RegOp) : RegState :=
  ops.foldl execOp reg

/-- The spec's registry invariant: every AOR entry present in the state
has a non-empty instance map. -/
def allNonempty (reg : RegState) : Prop :=
  ∀ e ∈ reg, e.2 ≠ []

instance allNonempty.instDecidable (reg : RegState) : Decidable (allNonempty reg) :=
  List.decidableBAll _ reg

/-- Side condition under which the emptied-entry cleanup of
`RemoveContact` fires: every user-part match for `aor` in the state
is in fact a full-URI match. -/
def keysOkB : RegState → Uri → Bool
  | [], _ => true
  | (k, _) :: rest, aor =>
      (if k.user = aor.user then decide (k = aor) else true) && keysOkB rest aor

/-- Guard on a single operation: `removeContact` is only invoked with an
`aor` that full-URI-equals any user-part match; other operations are
unrestricted. -/
def okOpB (reg : RegState) : RegOp → Bool
  | RegOp.removeContact aor _ => keysOkB reg aor
  | _ => true

/-- Guard along a whole operation sequence. -/
def okSeqB : RegState → List RegOp → Bool
  | _, [] => true
  | reg, op :: rest => okOpB reg op && okSeqB (execOp reg op) rest

/-- Session handles (`*session.Session`), compared by identity. -/
abbrev Session := Nat

/-- `B2BCall` (b2bua.go lines 20-23): the paired source (A-leg) and
destination (B-leg) sessions. -/
structure B2BCall where
  src : Session
  dest : Session
  deriving DecidableEq, Repr

/-- Protocol actions the engine issues toward the external session
layer; recorded in emission order. -/
inductive SipAction where
  | endSession : Session → SipAction
  | provideAnswer : Session → String → SipAction
  | provisionalR : Session → Nat → String → SipAction
  | accept : Session → Nat → SipAction
  | reject : Session → Nat → String → SipAction
  | originate : ContactInstance → SipAction
  deriving DecidableEq, Repr

/-- `B2BUA.findCall` (lines 196-203): first call in the active list
having `sess` as either leg. -/
def findCallGo : List B2BCall → Session → Option B2BCall
  | [], _ => none
  | c :: rest, sess =>
      if c.src = sess ∨ c.dest = sess then some c else findCallGo rest sess

/-- `B2BUA.removeCall` (lines 206-213): delete the first call in the
active list having `sess` as either leg. -/
def removeCallGo : List B2BCall → Session → List B2BCall
  | [], _ => []
  | c :: rest, sess =>
      if c.src = sess ∨ c.dest = sess then rest else c :: removeCallGo rest sess

/-- Actions of the `Failure`/`Canceled`/`Terminated` branch of
`InviteStateHandler` (lines 166-174): find the call; end the leg
opposite to the one that reported the terminal state. -/
def terminalActions (calls : List B2BCall) (sess : Session) : List SipAction :=
  match findCallGo calls sess with
  | some c =>
      if c.src = sess then [SipAction.endSession c.dest]
      else if c.dest = sess then [SipAction.endSession c.src]
      else []
  | none => []

/-- The whole terminal branch (lines 166-175): the emitted actions and
the active list after the unconditional `removeCall`. -/
def handleTerminal (calls : List B2BCall) (sess : Session) : List SipAction × List B2BCall :=
  (terminalActions calls sess, removeCallGo calls sess)

/-- The `Confirmed` branch of `InviteStateHandler` (lines 158-164):
if the session is the destination leg of a found call, provide the
B-leg's remote description as the answer on the A-leg and accept the
A-leg with 200.  `sdpOf` models `Session.RemoteSdp()`.  The active
list is not modified by this branch. -/
def handleConfirmed (calls : List B2BCall) (sess : Session) (sdpOf : Session → String) :
    List SipAction :=
  match findCallGo calls sess with
  | some c =>
      if c.dest = sess then
        [SipAction.provideAnswer c.src (sdpOf sess), SipAction.accept c.src 200]
      else []
  | none => []

/-- Rendering of a `sip.Uri` by `fmt.Sprintf("%v", ...)`. -/
def uriString (u : Uri) : String :=
  "sip:" ++ u.user ++ "@" ++ u.host

/-- The `InviteReceived` branch of `InviteStateHandler` (lines 103-139):
query the registry for the called AOR; if found, send `100 Trying` on
the A-leg and originate one B-leg per contact instance (a failed
origination — `orig` returning `none` — is skipped), appending one
`B2BCall` per success; if not found, reject the A-leg with 404. -/
def handleInvite (reg : RegState) (calls : List B2BCall) (sess : Session) (called : Uri)
    (orig : ContactInstance → Option Session) : List SipAction × List B2BCall :=
  match getContactsGo reg called with
  | some cis =>
      (SipAction.provisionalR sess 100 "Trying" :: cis.map (fun p => SipAction.originate p.2),
       calls ++ cis.filterMap (fun p => (orig p.2).map (fun d => B2BCall.mk sess d)))
  | none =>
      ([SipAction.reject sess 404 (uriString called ++ " Not found")], calls)

/-- The fields of an inbound REGISTER request that `handleRegister` and
`NewContactInstanceForRequest` read. -/
structure RegisterReq where
  aor : Uri
  hasExpires : Bool
  expires : Nat
  source : String
  transport : String
  userAgent : String
  contact : String
  deriving DecidableEq, Repr

/-- `registry.NewContactInstanceForRequest` (registry.go lines 19-36). -/
def instanceForRequest (req : RegisterReq) : ContactInstance :=
  { contact := req.contact
    regExpires := if req.hasExpires then req.expires else 0
    lastUpdated := 0
    source := req.source
    userAgent := req.userAgent
    transport := req.transport }

/-- `B2BUA.handleRegister` (b2bua.go lines 256-282): with an `Expires`
header holding a non-zero value, `AddAor` and reason `Registered`;
otherwise `RemoveContact` (its error discarded) and reason
`UnRegistered`; the response status is always 200. -/
def handleRegisterGo (reg : RegState) (req : RegisterReq) : RegState × Nat × String :=
  let expires : Nat := if req.hasExpires then req.expires else 0
  let inst := instanceForRequest req
  if req.hasExpires ∧ expires ≠ 0 then
    (addAorGo reg req.aor inst, 200, "Registered")
  else
    ((removeContactGo reg req.aor inst).1, 200, "UnRegistered")

/-- One thread running the terminal branch for its session: program
counter 0 = about to run `findCall` (line 167), 1 = about to end the
other leg and run `removeCall` (lines 168-175), 2 = done.  `found` is
the thread-local `call` variable. -/
structure TermThread where
  sess : Session
  pc : Nat
  found : Option B2BCall
  deriving DecidableEq, Repr

/-- One micro-step of a terminal-branch thread against the shared,
unlocked `B2BUA.calls` list (the `B2BUA` struct of lines 31-38 holds
no mutex, so steps of different threads interleave freely). -/
def stepTerm (calls : List B2BCall) (t : TermThread) :
    List B2BCall × TermThread × List SipAction :=
  match t.pc with
  | 0 => (calls, { t with pc := 1, found := findCallGo calls t.sess }, [])
  | 1 =>
      let acts :=
        match t.found with
        | some c =>
            if c.src = t.sess then [SipAction.endSession c.dest]
            else if c.dest = t.sess then [SipAction.endSession c.src]
            else []
        | none => []
      (removeCallGo calls t.sess, { t with pc := 2 }, acts)
  | _ => (calls, t, [])

/-- Shared state of two concurrent terminal-branch threads. -/
structure RaceState where
  calls : List B2BCall
  t1 : TermThread
  t2 : TermThread
  acts : List SipAction
  deriving DecidableEq, Repr

/-- Run one micro-step of thread 1 (`true`) or thread 2 (`false`). -/
def schedStep (rs : RaceState) (who : Bool) : RaceState :=
  if who then
    let r := stepTerm rs.calls rs.t1
    { rs with calls := r.1, t1 := r.2.1, acts := rs.acts ++ r.2.2 }
  else
    let r := stepTerm rs.calls rs.t2
    { rs with calls := r.1, t2 := r.2.1, acts := rs.acts ++ r.2.2 }

/-- Run a whole interleaving schedule. -/
def runSched (rs : RaceState) (sched : List Bool) : RaceState :=
  sched.foldl schedStep rs

/-- Concrete AOR `sip:100@a.com`. -/
def uriA : Uri := { user := "100", host := "a.com" }

/-- Concrete AOR `sip:100@b.com`: same user part as `uriA`, different
domain. -/
def uriB : Uri := { user := "100", host := "b.com" }

/-- Concrete AOR `sip:200@a.com`. -/
def uriC : Uri := { user := "200", host := "a.com" }

/-- A contact instance registered from source `1.1.1.1:5060`. -/
def ciS : ContactInstance :=
  { contact := "<sip:100@1.1.1.1:5060>", regExpires := 3600, lastUpdated := 0,
    source := "1.1.1.1:5060", userAgent := "ua1", transport := "udp" }

/-- A contact instance registered from source `2.2.2.2:5060`. -/
def ciT : ContactInstance :=
  { contact := "<sip:100@2.2.2.2:5060>", regExpires := 3600, lastUpdated := 0,
    source := "2.2.2.2:5060", userAgent := "ua2", transport := "tcp" }

/-- Registry holding the AOR `sip:200@a.com` with exactly two contact
instances (two registered devices). -/
def regTwo : RegState := [(uriC, [("1.1.1.1:5060", ciS), ("2.2.2.2:5060", ciT)])]

/-- Concrete origination outcome: the contact from source `1.1.1.1:5060`
yields B-leg session `7`, the one from `2.2.2.2:5060` yields B-leg
session `8`. -/
def origTwo : ContactInstance → Option Session := fun i =>
  if i.source = "1.1.1.1:5060" then some 7
  else if i.source = "2.2.2.2:5060" then some 8
  else none

/-- Concrete remote session descriptions of the two B-legs. -/
def sdpTwo : Session → String := fun s => if s = 7 then "sdpB1" else "sdpB2"

/-- Initial shared state for two racing terminal events, one per leg of
the single active call `1 => 2`. -/
def rsRace : RaceState :=
  { calls := [B2BCall.mk 1 2],
    t1 := { sess := 1, pc := 0, found := none },
    t2 := { sess := 2, pc := 0, found := none },
    acts := [] }

/-- `result` flag a full (break-free) scan of `HandleConnectionError`
would report: some entry holds an instance keyed by `src`. -/
def anySrc : RegState → String → Bool
  | [], _ => false
  | (_, cis) :: rest, src => hasSrc cis src || anySrc rest src

theorem upsert_ne_nil (cis : InstList) (src : String) (inst : ContactInstance) :
    upsert cis src inst ≠ [] := by
  cases cis with
  | nil => simp [upsert]
  | cons p rest =>
      obtain ⟨s, i⟩ := p
      by_cases h : s = src <;> simp [upsert, h]

theorem updateFirstUser_none_iff (reg : RegState) (aor : Uri) (f : InstList → InstList) :
    updateFirstUser reg aor f = none ↔ findInstancesGo reg aor = none := by
  induction reg with
  | nil => simp [updateFirstUser, findInstancesGo]
  | cons hd rest ih =>
      obtain ⟨k, cis⟩ := hd
      by_cases hu : k.user = aor.user
      · simp [updateFirstUser, findInstancesGo, hu]
      · simp only [updateFirstUser, findInstancesGo, if_neg hu]
        cases hrec : updateFirstUser rest aor f with
        | none => simpa [hrec] using ih
        | some pr => simp [hrec] at ih ⊢; simpa using ih

theorem updateFirstUser_some (reg : RegState) (aor : Uri) (f : InstList → InstList)
    (cis2 : InstList) (reg2 : RegState)
    (h : updateFirstUser reg aor f = some (cis2, reg2)) :
    ∃ pre k cis post,
      reg = pre ++ (k, cis) :: post
      ∧ (∀ e ∈ pre, e.1.user ≠ aor.user)
      ∧ k.user = aor.user
      ∧ cis2 = f cis
      ∧ reg2 = pre ++ (k, f cis) :: post := by
  induction reg generalizing cis2 reg2 with
  | nil => simp [updateFirstUser] at h
  | cons hd rest ih =>
      obtain ⟨k, cis⟩ := hd
      by_cases hu : k.user = aor.user
      · simp only [updateFirstUser, if_pos hu, Option.some.injEq, Prod.mk.injEq] at h
        exact ⟨[], k, cis, rest, by simp [hu, h.1.symm, h.2.symm]⟩
      · simp only [updateFirstUser, if_neg hu] at h
        cases hrec : updateFirstUser rest aor f with
        | none => rw [hrec] at h; simp at h
        | some pr =>
            obtain ⟨c, r⟩ := pr
            rw [hrec] at h
            simp only [Option.some.injEq, Prod.mk.injEq] at h
            obtain ⟨pre, k2, cis3, post, hsplit, hpre, hk2, hc, hr⟩ := ih c r hrec
            refine ⟨(k, cis) :: pre, k2, cis3, post, ?_, ?_, hk2, ?_, ?_⟩
            · simp [hsplit]
            · intro e he
              rcases List.mem_cons.mp he with he | he
              · rw [he]; exact hu
              · exact hpre e he
            · rw [← h.1, hc]
            · rw [← h.2, hr]; simp

theorem mem_eraseKeyEq (reg : RegState) (aor : Uri) (e : Uri × InstList)
    (h : e ∈ eraseKeyEq reg aor) : e ∈ reg := by
  induction reg with
  | nil => simp [eraseKeyEq] at h
  | cons hd rest ih =>
      obtain ⟨k, c⟩ := hd
      by_cases hk : k = aor
      · rw [eraseKeyEq, if_pos hk] at h
        exact List.mem_cons_of_mem _ h
      · rw [eraseKeyEq, if_neg hk] at h
        rcases List.mem_cons.mp h with h | h
        · rw [h]; exact List.mem_cons_self _ _
        · exact List.mem_cons_of_mem _ (ih h)

theorem eraseKeyEq_append (pre : RegState) (aor : Uri) (cis : InstList) (post : RegState)
    (hpre : ∀ e ∈ pre, e.1 ≠ aor) :
    eraseKeyEq (pre ++ (aor, cis) :: post) aor = pre ++ post := by
  induction pre with
  | nil => simp [eraseKeyEq]
  | cons hd rest ih =>
      obtain ⟨k, c⟩ := hd
      have hk : k ≠ aor := hpre (k, c) (List.mem_cons_self _ _)
      simp only [List.cons_append, eraseKeyEq, if_neg hk, List.cons.injEq, true_and]
      exact ih (fun e he => hpre e (List.mem_cons_of_mem _ he))

theorem keysOkB_spec (reg : RegState) (aor : Uri) (h : keysOkB reg aor = true) :
    ∀ e ∈ reg, e.1.user = aor.user → e.1 = aor := by
  induction reg with
  | nil => simp
  | cons hd rest ih =>
      obtain ⟨k, cis⟩ := hd
      rw [keysOkB, Bool.and_eq_true] at h
      intro e he hu
      rcases List.mem_cons.mp he with he | he
      · rw [he] at hu ⊢
        have h1 := h.1
        rw [if_pos hu] at h1
        exact of_decide_eq_true h1
      · exact ih h.2 e he hu

theorem allNonempty_addAor (reg : RegState) (aor : Uri) (inst : ContactInstance)
    (h : allNonempty reg) : allNonempty (addAorGo reg aor inst) := by
  induction reg with
  | nil =>
      intro e he
      simp [addAorGo] at he
      simp [he]
  | cons hd rest ih =>
      obtain ⟨k, cis⟩ := hd
      by_cases hu : k.user = aor.user
      · intro e he
        rw [addAorGo, if_pos hu] at he
        rcases List.mem_cons.mp he with he | he
        · rw [he]; exact upsert_ne_nil cis inst.source inst
        · exact h e (List.mem_cons_of_mem _ he)
      · intro e he
        rw [addAorGo, if_neg hu] at he
        rcases List.mem_cons.mp he with he | he
        · rw [he]; exact h (k, cis) (List.mem_cons_self _ _)
        · exact ih (fun e2 he2 => h e2 (List.mem_cons_of_mem _ he2)) e he

theorem allNonempty_eraseKeyEq (reg : RegState) (aor : Uri)
    (h : allNonempty reg) : allNonempty (eraseKeyEq reg aor) :=
  fun e he => h e (mem_eraseKeyEq reg aor e he)

theorem allNonempty_updateContact (reg : RegState) (aor : Uri) (inst : ContactInstance)
    (h : allNonempty reg) : allNonempty (updateContactGo reg aor inst).1 := by
  rw [updateContactGo]
  cases hu : updateFirstUser reg aor (fun cis => upsert cis inst.source inst) with
  | none => exact h
  | some pr =>
      obtain ⟨cis2, reg2⟩ := pr
      obtain ⟨pre, k, cis, post, hsplit, hpre, hk, hc, hr⟩ :=
        updateFirstUser_some reg aor _ cis2 reg2 hu
      intro e he
      simp only at he
      rw [hr] at he
      rcases List.mem_append.mp he with he | he
      · exact h e (by rw [hsplit]; exact List.mem_append_left _ he)
      · rcases List.mem_cons.mp he with he | he
        · rw [he]; exact upsert_ne_nil cis inst.source inst
        · exact h e (by rw [hsplit]; exact List.mem_append_right _ (List.mem_cons_of_mem _ he))

theorem allNonempty_removeContact (reg : RegState) (aor : Uri) (inst : ContactInstance)
    (h : allNonempty reg) (hok : keysOkB reg aor = true) :
    allNonempty (removeContactGo reg aor inst).1 := by
  cases hu : updateFirstUser reg aor (fun cis => eraseSrc cis inst.source) with
  | none => simpa [removeContactGo, hu] using h
  | some pr =>
      obtain ⟨cis2, reg2⟩ := pr
      simp only [removeContactGo, hu]
      obtain ⟨pre, k, cis, post, hsplit, hpre, hk, hc, hr⟩ :=
        updateFirstUser_some reg aor _ cis2 reg2 hu
      have hkaor : k = aor :=
        keysOkB_spec reg aor hok (k, cis)
          (by rw [hsplit]; exact List.mem_append_right _ (List.mem_cons_self _ _)) hk
      have hpre2 : ∀ e ∈ pre, e.1 ≠ aor := by
        intro e he heq
        exact hpre e he (by rw [heq])
      by_cases hemp : cis2 = []
      · rw [if_pos hemp]
        show allNonempty (eraseKeyEq reg2 aor)
        have : reg2 = pre ++ (aor, cis2) :: post := by rw [hr, ← hc, hkaor]
        rw [this, eraseKeyEq_append pre aor cis2 post hpre2]
        intro e he
        rcases List.mem_append.mp he with he | he
        · exact h e (by rw [hsplit]; exact List.mem_append_left _ he)
        · exact h e (by rw [hsplit]; exact List.mem_append_right _ (List.mem_cons_of_mem _ he))
      · rw [if_neg hemp]
        show allNonempty reg2
        intro e he
        rw [hr] at he
        rcases List.mem_append.mp he with he | he
        · exact h e (by rw [hsplit]; exact List.mem_append_left _ he)
        · rcases List.mem_cons.mp he with he | he
          · rw [he]; simpa [← hc] using hemp
          · exact h e (by rw [hsplit]; exact List.mem_append_right _ (List.mem_cons_of_mem _ he))

theorem allNonempty_hce (src : String) (reg : RegState)
    (h : allNonempty reg) : allNonempty (hceLoop src reg).1 := by
  induction reg with
  | nil => intro e he; simp [hceLoop] at he
  | cons hd rest ih =>
      obtain ⟨k, cis⟩ := hd
      by_cases hc : eraseSrc cis src = []
      · intro e he
        simp only [hceLoop, if_pos hc] at he
        exact h e (List.mem_cons_of_mem _ he)
      · intro e he
        simp only [hceLoop, if_neg hc] at he
        rcases List.mem_cons.mp he with he | he
        · rw [he]; exact hc
        · exact ih (fun e2 he2 => h e2 (List.mem_cons_of_mem _ he2)) e he

theorem execOp_preserves (reg : RegState) (op : RegOp)
    (h : allNonempty reg) (hok : okOpB reg op = true) :
    allNonempty (execOp reg op) := by
  cases op with
  | addOrUpdate aor inst => exact allNonempty_addAor reg aor inst h
  | remove aor => exact allNonempty_eraseKeyEq reg aor h
  | updateContact aor inst => exact allNonempty_updateContact reg aor inst h
  | removeContact aor inst =>
      exact allNonempty_removeContact reg aor inst h (by simpa [okOpB] using hok)
  | connLoss src => exact allNonempty_hce src reg h

theorem execOps_preserves (ops : List RegOp) :
    ∀ reg, allNonempty reg → okSeqB reg ops = true → allNonempty (execOps reg ops) := by
  induction ops with
  | nil => intro reg h _; simpa [execOps] using h
  | cons op rest ih =>
      intro reg h hok
      rw [okSeqB, Bool.and_eq_true] at hok
      have h2 := execOp_preserves reg op h hok.1
      simpa [execOps] using ih (execOp reg op) h2 hok.2

theorem hasSrc_false_of_not_mem (cis : InstList) (src : String)
    (h : src ∉ cis.map Prod.fst) : hasSrc cis src = false := by
  induction cis with
  | nil => rfl
  | cons p rest ih =>
      obtain ⟨s, i⟩ := p
      simp only [List.map_cons, List.mem_cons] at h
      push_neg at h
      rw [hasSrc, if_neg (fun hs => h.1 hs.symm)]
      exact ih h.2

theorem hasSrc_eraseSrc_of_nodup (cis : InstList) (src : String)
    (h : (cis.map Prod.fst).Nodup) : hasSrc (eraseSrc cis src) src = false := by
  induction cis with
  | nil => rfl
  | cons p rest ih =>
      obtain ⟨s, i⟩ := p
      simp only [List.map_cons, List.nodup_cons] at h
      by_cases hs : s = src
      · rw [eraseSrc, if_pos hs]
        exact hasSrc_false_of_not_mem rest src (hs ▸ h.1)
      · rw [eraseSrc, if_neg hs, hasSrc, if_neg hs]
        exact ih h.2

theorem eraseSrc_id_of_not_hasSrc (cis : InstList) (src : String)
    (h : hasSrc cis src = false) : eraseSrc cis src = cis := by
  induction cis with
  | nil => rfl
  | cons p rest ih =>
      obtain ⟨s, i⟩ := p
      by_cases hs : s = src
      · rw [hasSrc, if_pos hs] at h; exact absurd h (by simp)
      · rw [hasSrc, if_neg hs] at h
        rw [eraseSrc, if_neg hs, ih h]

theorem hce_no_break (src : String) (reg : RegState)
    (hne : ∀ e ∈ reg, eraseSrc e.2 src ≠ []) :
    hceLoop src reg = (reg.map (fun e => (e.1, eraseSrc e.2 src)), anySrc reg src) := by
  induction reg with
  | nil => rfl
  | cons hd rest ih =>
      obtain ⟨k, cis⟩ := hd
      have hc : eraseSrc cis src ≠ [] := hne (k, cis) (List.mem_cons_self _ _)
      rw [hceLoop]
      simp only [if_neg hc]
      rw [ih (fun e he => hne e (List.mem_cons_of_mem _ he))]
      simp [anySrc]

theorem hce_all_clean (src : String) (reg : RegState)
    (h : ∀ e ∈ reg, hasSrc e.2 src = false ∧ e.2 ≠ []) :
    hceLoop src reg = (reg, false) := by
  induction reg with
  | nil => rfl
  | cons hd rest ih =>
      obtain ⟨k, cis⟩ := hd
      have h1 := h (k, cis) (List.mem_cons_self _ _)
      have hid : eraseSrc cis src = cis := eraseSrc_id_of_not_hasSrc cis src h1.1
      rw [hceLoop]
      simp only [hid, if_neg h1.2]
      rw [ih (fun e he => h e (List.mem_cons_of_mem _ he))]
      simp [h1.1]

theorem findCallGo_some_split (calls : List B2BCall) (sess : Session) (c : B2BCall)
    (h : findCallGo calls sess = some c) :
    (c.src = sess ∨ c.dest = sess)
    ∧ ∃ pre post, calls = pre ++ c :: post
        ∧ ∀ c2 ∈ pre, c2.src ≠ sess ∧ c2.dest ≠ sess := by
  induction calls with
  | nil => simp [findCallGo] at h
  | cons hd rest ih =>
      by_cases hm : hd.src = sess ∨ hd.dest = sess
      · rw [findCallGo, if_pos hm, Option.some.injEq] at h
        subst h
        exact ⟨hm, [], rest, rfl, by simp⟩
      · rw [findCallGo, if_neg hm] at h
        obtain ⟨hc, pre, post, hsplit, hpre⟩ := ih h
        push_neg at hm
        refine ⟨hc, hd :: pre, post, by simp [hsplit], ?_⟩
        intro c2 hc2
        rcases List.mem_cons.mp hc2 with hc2 | hc2
        · rw [hc2]; exact hm
        · exact hpre c2 hc2

theorem findCallGo_none_not_mem (calls : List B2BCall) (sess : Session)
    (h : findCallGo calls sess = none) :
    ∀ c ∈ calls, c.src ≠ sess ∧ c.dest ≠ sess := by
  induction calls with
  | nil => simp
  | cons hd rest ih =>
      by_cases hm : hd.src = sess ∨ hd.dest = sess
      · rw [findCallGo, if_pos hm] at h; exact absurd h (by simp)
      · rw [findCallGo, if_neg hm] at h
        push_neg at hm
        intro c hc
        rcases List.mem_cons.mp hc with hc | hc
        · rw [hc]; exact hm
        · exact ih h c hc

theorem removeCallGo_id_of_no_match (calls : List B2BCall) (sess : Session)
    (h : ∀ c ∈ calls, c.src ≠ sess ∧ c.dest ≠ sess) :
    removeCallGo calls sess = calls := by
  induction calls with
  | nil => rfl
  | cons hd rest ih =>
      have h1 := h hd (List.mem_cons_self _ _)
      have hm : ¬(hd.src = sess ∨ hd.dest = sess) := by
        push_neg
        exact h1
      rw [removeCallGo, if_neg hm, ih (fun c hc => h c (List.mem_cons_of_mem _ hc))]

theorem removeCallGo_append (pre : List B2BCall) (c : B2BCall) (post : List B2BCall)
    (sess : Session) (hpre : ∀ c2 ∈ pre, c2.src ≠ sess ∧ c2.dest ≠ sess)
    (hc : c.src = sess ∨ c.dest = sess) :
    removeCallGo (pre ++ c :: post) sess = pre ++ post := by
  induction pre with
  | nil => rw [List.nil_append, removeCallGo, if_pos hc, List.nil_append]
  | cons hd rest ih =>
      have h1 := hpre hd (List.mem_cons_self _ _)
      have hm : ¬(hd.src = sess ∨ hd.dest = sess) := by
        push_neg
        exact h1
      simp only [List.cons_append, removeCallGo, if_neg hm, List.cons.injEq, true_and]
      exact ih (fun c2 hc2 => hpre c2 (List.mem_cons_of_mem _ hc2))

theorem findCallGo_append_no_match (pre rest : List B2BCall) (sess : Session)
    (hpre : ∀ c2 ∈ pre, c2.src ≠ sess ∧ c2.dest ≠ sess) :
    findCallGo (pre ++ rest) sess = findCallGo rest sess := by
  induction pre with
  | nil => rfl
  | cons hd tl ih =>
      have h1 := hpre hd (List.mem_cons_self _ _)
      have hm : ¬(hd.src = sess ∨ hd.dest = sess) := by
        push_neg
        exact h1
      simp only [List.cons_append, findCallGo, if_neg hm]
      exact ih (fun c2 hc2 => hpre c2 (List.mem_cons_of_mem _ hc2))

theorem addAorGo_of_not_found (reg : RegState) (aor : Uri) (inst : ContactInstance) :
    findInstancesGo reg aor = none →
    addAorGo reg aor inst = reg ++ [(aor, [(inst.source, inst)])] := by
  induction reg with
  | nil => intro h; rfl
  | cons hd rest ih =>
      obtain ⟨k, cis⟩ := hd
      intro h
      by_cases hu : k.user = aor.user
      · rw [findInstancesGo, if_pos hu] at h; exact absurd h (by simp)
      · rw [findInstancesGo, if_neg hu] at h
        rw [addAorGo, if_neg hu, ih h, List.cons_append]

theorem addAorGo_of_found (aor : Uri) (inst : ContactInstance) (k : Uri)
    (cis : InstList) (post : RegState) :
    ∀ pre : RegState, (∀ e ∈ pre, e.1.user ≠ aor.user) → k.user = aor.user →
    addAorGo (pre ++ (k, cis) :: post) aor inst
      = pre ++ (k, upsert cis inst.source inst) :: post := by
  intro pre
  induction pre with
  | nil => intro _ hk; rw [List.nil_append, addAorGo, if_pos hk, List.nil_append]
  | cons hd rest ih =>
      obtain ⟨k2, cis2⟩ := hd
      intro hpre hk
      have h2 : ¬ k2.user = aor.user := hpre (k2, cis2) (List.mem_cons_self _ _)
      simp only [List.cons_append, addAorGo, if_neg h2, List.cons.injEq, true_and]
      exact ih (fun e he => hpre e (List.mem_cons_of_mem _ he)) hk

/-- C1 counterexample: starting from the empty registry, `AddAor` of
`sip:100@a.com` followed by `RemoveContact` addressed to
`sip:100@b.com` (same user part, different domain) matches the entry
by user part, deletes its only instance, but fails the full-URI
`Equals` check of the cleanup scan — leaving the AOR entry
`sip:100@a.com` present with an empty instance map, so the claimed
invariant is false for this operation sequence. -/
theorem c1_counterexample :
    execOps [] [RegOp.addOrUpdate uriA ciS, RegOp.removeContact uriB ciS] = [(uriA, [])]
    ∧ ¬ allNonempty
        (execOps [] [RegOp.addOrUpdate uriA ciS, RegOp.removeContact uriB ciS]) := by
  constructor
  · decide
  · decide

/-- C1 (amended): for every sequence of registry operations starting
from the empty registry in which each `RemoveContact` is invoked
with an AOR that full-URI-equals every user-part match present at
that moment (in particular whenever the argument AOR is exactly the
registered one), every AOR entry of the resulting state has a
non-empty contact-instance map.  Without that restriction the
invariant fails (`RemoveContact` matches the entry by user part but
erases an emptied entry only under full-URI equality). -/
theorem c1_amended_theorem (ops : List RegOp) (h : okSeqB [] ops = true) :
    allNonempty (execOps [] ops) :=
  execOps_preserves ops [] (by intro e he; simp at he) h

/-- Witness for `c1_amended_theorem`: registering `sip:100@a.com` and
unregistering it under the same full URI leaves no empty entry. -/
theorem c1_amended_witness :
    okSeqB [] [RegOp.addOrUpdate uriA ciS, RegOp.removeContact uriA ciS] = true
    ∧ allNonempty (execOps [] [RegOp.addOrUpdate uriA ciS, RegOp.removeContact uriA ciS]) :=
  ⟨by decide, c1_amended_theorem [RegOp.addOrUpdate uriA ciS, RegOp.removeContact uriA ciS]
    (by decide)⟩

/-- C2 counterexample: with `sip:100@a.com` and `sip:200@a.com` each
registered exactly once from source `1.1.1.1:5060`,
`HandleConnectionError` for that source empties and deletes the
first entry and then `break`s out of the scan, leaving the second
entry's matching instance in place; the immediately repeated call
removes that instance and returns `true`, not `false`. -/
theorem c2_counterexample :
    hceLoop "1.1.1.1:5060"
        (execOps [] [RegOp.addOrUpdate uriA ciS, RegOp.addOrUpdate uriC ciS])
      = ([(uriC, [("1.1.1.1:5060", ciS)])], true)
    ∧ hceLoop "1.1.1.1:5060" [(uriC, [("1.1.1.1:5060", ciS)])] = ([], true) := by
  constructor
  · decide
  · decide

/-- C2 (amended): `HandleConnectionError` scans entries in order and
stops at the first entry left empty, so it is exhaustive and
idempotent only when no entry is emptied by the removal: if every
entry keeps at least one instance after deleting the lost source's
instance (per-entry source keys being unique, as in a Go map), then
one call removes exactly the instance keyed by the lost source from
every entry, returns `true` iff at least one instance was removed,
and an immediately repeated call removes nothing and returns
`false`. -/
theorem c2_amended_theorem (reg : RegState) (src : String)
    (hnodup : ∀ e ∈ reg, (e.2.map Prod.fst).Nodup)
    (hne : ∀ e ∈ reg, eraseSrc e.2 src ≠ []) :
    hceLoop src reg = (reg.map (fun e => (e.1, eraseSrc e.2 src)), anySrc reg src)
    ∧ hceLoop src (hceLoop src reg).1 = ((hceLoop src reg).1, false) := by
  have h1 := hce_no_break src reg hne
  refine ⟨h1, ?_⟩
  rw [h1]
  exact hce_all_clean src _ (by
    intro e he
    obtain ⟨e2, he2, heq⟩ := List.mem_map.mp he
    constructor
    · rw [← heq]
      exact hasSrc_eraseSrc_of_nodup e2.2 src (hnodup e2 he2)
    · rw [← heq]
      exact hne e2 he2)

/-- Witness for `c2_amended_theorem`: an AOR with two instances from
different sources loses exactly the one from the lost source, and
the repeated call is a no-op returning `false`. -/
theorem c2_amended_witness :
    (∀ e ∈ regTwo, (e.2.map Prod.fst).Nodup)
    ∧ (∀ e ∈ regTwo, eraseSrc e.2 "1.1.1.1:5060" ≠ [])
    ∧ (hceLoop "1.1.1.1:5060" regTwo
        = (regTwo.map (fun e => (e.1, eraseSrc e.2 "1.1.1.1:5060")), anySrc regTwo "1.1.1.1:5060")
      ∧ hceLoop "1.1.1.1:5060" (hceLoop "1.1.1.1:5060" regTwo).1
          = ((hceLoop "1.1.1.1:5060" regTwo).1, false)) :=
  ⟨by decide, by decide, c2_amended_theorem regTwo "1.1.1.1:5060" (by decide) (by decide)⟩

/-- C3 counterexample: with `sip:100@a.com` already registered, an
`AddAor` for `sip:100@b.com` (same user part, different domain) is
absorbed into the existing `sip:100@a.com` entry; no entry keyed by
`sip:100@b.com` is created, contradicting the claimed full-URI
matching. -/
theorem c3_counterexample :
    addAorGo [(uriA, [("1.1.1.1:5060", ciS)])] uriB ciT
      = [(uriA, [("1.1.1.1:5060", ciS), ("2.2.2.2:5060", ciT)])]
    ∧ uriB ∉ (addAorGo [(uriA, [("1.1.1.1:5060", ciS)])] uriB ciT).map Prod.fst := by
  constructor
  · decide
  · decide

/-- C3 (amended): `AddAor` matches the existing entry by user part, not
by full URI: if no entry shares the user part, a new entry keyed by
the full `aor` holding only this instance is appended; otherwise the
instance is inserted/overwritten, keyed by its source address, into
the first entry whose key has the same user part — even when that
key's domain differs from `aor`'s.  The operation always succeeds
(the Go method always returns `nil`). -/
theorem c3_amended_theorem (reg : RegState) (aor : Uri) (inst : ContactInstance) :
    (findInstancesGo reg aor = none →
      addAorGo reg aor inst = reg ++ [(aor, [(inst.source, inst)])])
    ∧ (∀ pre k cis post, reg = pre ++ (k, cis) :: post →
        (∀ e ∈ pre, e.1.user ≠ aor.user) → k.user = aor.user →
        addAorGo reg aor inst = pre ++ (k, upsert cis inst.source inst) :: post) := by
  constructor
  · exact addAorGo_of_not_found reg aor inst
  · intro pre k cis post hsplit hpre hk
    rw [hsplit]
    exact addAorGo_of_found aor inst k cis post pre hpre hk

/-- Witness for `c3_amended_theorem`: the not-found case appends a new
entry, and the user-part-match case (with a different domain)
absorbs the instance into the existing entry. -/
theorem c3_amended_witness :
    (findInstancesGo [] uriC = none →
      addAorGo [] uriC ciS = [] ++ [(uriC, [("1.1.1.1:5060", ciS)])])
    ∧ addAorGo [(uriA, [("1.1.1.1:5060", ciS)])] uriB ciT
        = [] ++ (uriA, upsert [("1.1.1.1:5060", ciS)] "2.2.2.2:5060" ciT) :: [] :=
  ⟨(c3_amended_theorem [] uriC ciS).1,
   (c3_amended_theorem [(uriA, [("1.1.1.1:5060", ciS)])] uriB ciT).2
     [] uriA [("1.1.1.1:5060", ciS)] [] rfl (by simp) (by decide)⟩

/-- C4: on a `Failure`/`Canceled`/`Terminated` event for session `sess`,
if `sess` is a leg of an active call — the first such call `c` in
the list — the engine emits exactly one `End` for the other leg of
`c` and removes exactly `c` from the active set; if `sess` is a leg
of no active call, no leg is ended and the active set is unchanged. -/
theorem c4_terminal_theorem (calls : List B2BCall) (sess : Session) :
    (∀ c, findCallGo calls sess = some c →
      terminalActions calls sess
          = [SipAction.endSession (if c.src = sess then c.dest else c.src)]
      ∧ ∃ pre post, calls = pre ++ c :: post
          ∧ (∀ c2 ∈ pre, c2.src ≠ sess ∧ c2.dest ≠ sess)
          ∧ removeCallGo calls sess = pre ++ post)
    ∧ (findCallGo calls sess = none →
        terminalActions calls sess = [] ∧ removeCallGo calls sess = calls) := by
  constructor
  · intro c hc
    obtain ⟨hleg, pre, post, hsplit, hpre⟩ := findCallGo_some_split calls sess c hc
    constructor
    · simp only [terminalActions, hc]
      by_cases hs : c.src = sess
      · rw [if_pos hs, if_pos hs]
      · rw [if_neg hs, if_neg hs, if_pos (hleg.resolve_left hs)]
    · refine ⟨pre, post, hsplit, hpre, ?_⟩
      rw [hsplit]
      exact removeCallGo_append pre c post sess hpre hleg
  · intro hn
    exact ⟨by simp only [terminalActions, hn],
      removeCallGo_id_of_no_match calls sess (findCallGo_none_not_mem calls sess hn)⟩

/-- Witness for `c4_terminal_theorem`: a terminal event on the A-leg of
the only active call ends its B-leg, and a terminal event for a
session that is no call's leg leaves the active set unchanged. -/
theorem c4_terminal_witness :
    terminalActions [B2BCall.mk 1 2] 1 = [SipAction.endSession 2]
    ∧ removeCallGo [B2BCall.mk 3 4] 5 = [B2BCall.mk 3 4] := by
  constructor
  · have h := (c4_terminal_theorem [B2BCall.mk 1 2] 1).1 (B2BCall.mk 1 2) (by decide)
    simpa using h.1
  · exact ((c4_terminal_theorem [B2BCall.mk 3 4] 5).2 (by decide)).2

/-- C5 counterexample: an inbound call-setup for `sip:200@a.com` with
two registered contacts creates the two calls `1 => 7` and `1 => 8`;
`Confirmed` on B-leg `7` answers and accepts A-leg `1`, but the
`Confirmed` branch never removes the call, so a later `Confirmed` on
B-leg `8` is not a no-op: it applies B-leg `8`'s description and
accepts the already-accepted A-leg a second time. -/
theorem c5_counterexample :
    (handleInvite regTwo [] 1 uriC origTwo).2 = [B2BCall.mk 1 7, B2BCall.mk 1 8]
    ∧ handleConfirmed [B2BCall.mk 1 7, B2BCall.mk 1 8] 7 sdpTwo
        = [SipAction.provideAnswer 1 "sdpB1", SipAction.accept 1 200]
    ∧ handleConfirmed [B2BCall.mk 1 7, B2BCall.mk 1 8] 8 sdpTwo
        = [SipAction.provideAnswer 1 "sdpB2", SipAction.accept 1 200] := by
  refine ⟨by decide, by decide, by decide⟩

/-- C5 (amended): an inbound call-setup to an AOR with exactly two
registered contact instances originates two B-legs and appends two
B2B calls sharing the A-leg; `Confirmed` on the first B-leg applies
its description and accepts the A-leg with 200.  Because the
`Confirmed` branch does not remove the call from the active set, a
later `Confirmed` on the second B-leg does the same again — it
answers and accepts the A-leg a second time; it would be a no-op
only if that call had already been removed from the active set. -/
theorem c5_amended_theorem (reg : RegState) (called : Uri) (sess b1 b2 : Session)
    (s1 s2 : String) (i1 i2 : ContactInstance) (orig : ContactInstance → Option Session)
    (sdpOf : Session → String)
    (hget : getContactsGo reg called = some [(s1, i1), (s2, i2)])
    (h1 : orig i1 = some b1) (h2 : orig i2 = some b2)
    (hs2 : sess ≠ b2) (hb : b1 ≠ b2) :
    handleInvite reg [] sess called orig
      = ([SipAction.provisionalR sess 100 "Trying",
          SipAction.originate i1, SipAction.originate i2],
         [B2BCall.mk sess b1, B2BCall.mk sess b2])
    ∧ handleConfirmed [B2BCall.mk sess b1, B2BCall.mk sess b2] b1 sdpOf
        = [SipAction.provideAnswer sess (sdpOf b1), SipAction.accept sess 200]
    ∧ handleConfirmed [B2BCall.mk sess b1, B2BCall.mk sess b2] b2 sdpOf
        = [SipAction.provideAnswer sess (sdpOf b2), SipAction.accept sess 200] := by
  refine ⟨?_, ?_, ?_⟩
  · simp [handleInvite, hget, h1, h2]
  · simp [handleConfirmed, findCallGo]
  · simp [handleConfirmed, findCallGo, hs2, hb]

/-- Witness for `c5_amended_theorem` at the concrete two-contact
registry. -/
theorem c5_amended_witness :
    handleInvite regTwo [] 1 uriC origTwo
      = ([SipAction.provisionalR 1 100 "Trying",
          SipAction.originate ciS, SipAction.originate ciT],
         [B2BCall.mk 1 7, B2BCall.mk 1 8])
    ∧ handleConfirmed [B2BCall.mk 1 7, B2BCall.mk 1 8] 7 sdpTwo
        = [SipAction.provideAnswer 1 (sdpTwo 7), SipAction.accept 1 200]
    ∧ handleConfirmed [B2BCall.mk 1 7, B2BCall.mk 1 8] 8 sdpTwo
        = [SipAction.provideAnswer 1 (sdpTwo 8), SipAction.accept 1 200] :=
  c5_amended_theorem regTwo uriC 1 7 8 "1.1.1.1:5060" "2.2.2.2:5060" ciS ciT origTwo sdpTwo
    (by decide) (by decide) (by decide) (by decide) (by decide)

/-- C6: an inbound call-setup whose destination AOR has no registry
entry (`GetContacts` reports not found) rejects the A-leg with 404
`Not found`, originates nothing, and leaves the active-call set
unchanged. -/
theorem c6_reject_theorem (reg : RegState) (calls : List B2BCall) (sess : Session)
    (called : Uri) (orig : ContactInstance → Option Session)
    (h : getContactsGo reg called = none) :
    handleInvite reg calls sess called orig
      = ([SipAction.reject sess 404 (uriString called ++ " Not found")], calls) := by
  simp [handleInvite, h]

/-- Witness for `c6_reject_theorem`: the empty registry has no entry for
`sip:100@a.com`, so the invite for it is rejected with 404 and no
call is created. -/
theorem c6_reject_witness :
    handleInvite [] [B2BCall.mk 3 4] 1 uriA origTwo
      = ([SipAction.reject 1 404 (uriString uriA ++ " Not found")], [B2BCall.mk 3 4]) :=
  c6_reject_theorem [] [B2BCall.mk 3 4] 1 uriA origTwo (by decide)

/-- C7: a REGISTER with requested expiry 0 (or no `Expires` header at
all) addressed to an AOR with no matching registry entry takes the
unregister path: `RemoveContact` fails with its not-found error,
the error is discarded, the response is status 200 with reason
`UnRegistered`, and the registry is unchanged. -/
theorem c7_unregister_theorem (reg : RegState) (req : RegisterReq)
    (hexp : req.hasExpires = false ∨ req.expires = 0)
    (hnf : findInstancesGo reg req.aor = none) :
    handleRegisterGo reg req = (reg, 200, "UnRegistered") := by
  have hrc : removeContactGo reg req.aor (instanceForRequest req) = (reg, false) := by
    rw [removeContactGo,
      (updateFirstUser_none_iff reg req.aor
        (fun cis => eraseSrc cis (instanceForRequest req).source)).mpr hnf]
  rcases hexp with h | h
  · simp [handleRegisterGo, h, hrc]
  · simp [handleRegisterGo, h, hrc]

/-- Witness for `c7_unregister_theorem`: unregistering `sip:100@a.com`
(expiry 0) against a registry holding only `sip:200@a.com` responds
200 `UnRegistered` and changes nothing. -/
theorem c7_unregister_witness :
    handleRegisterGo [(uriC, [("1.1.1.1:5060", ciS)])]
        { aor := uriA, hasExpires := true, expires := 0, source := "9.9.9.9:5060",
          transport := "udp", userAgent := "ua9", contact := "<sip:100@9.9.9.9>" }
      = ([(uriC, [("1.1.1.1:5060", ciS)])], 200, "UnRegistered") :=
  c7_unregister_theorem [(uriC, [("1.1.1.1:5060", ciS)])]
    { aor := uriA, hasExpires := true, expires := 0, source := "9.9.9.9:5060",
      transport := "udp", userAgent := "ua9", contact := "<sip:100@9.9.9.9>" }
    (Or.inr (by decide)) (by decide)

/-- C8: the `B2BUA` struct holds no lock for its `calls` slice, so the
two micro-steps of the terminal branch (`findCall`, then end the
other leg and `removeCall`) of two concurrently dispatched terminal
events — one per leg of the same call `1 => 2` — can interleave as
find/find/act/act.  Under that interleaving both threads observe the
call and both execute a teardown (`End 2` and `End 1`): two
terminal-teardown actions for one B2B call, contradicting the
claimed at-most-one guarantee.  A serialized schedule of the very
same threads performs only the single teardown `End 2`. -/
theorem c8_race_theorem :
    (runSched rsRace [true, false, true, false]).acts
      = [SipAction.endSession 2, SipAction.endSession 1]
    ∧ (runSched rsRace [true, false, true, false]).calls = []
    ∧ (runSched rsRace [true, true, false, false]).acts
      = [SipAction.endSession 2] := by
  refine ⟨by decide, by decide, by decide⟩

/-- C9: when an A-leg `a` is shared by two (or more) active B2B calls
(parallel forking), a terminal event on `a` ends only the B-leg of
the first matching call in the active list and removes only that
call; every later call sharing `a` — in particular `a => b2` —
stays in the active set and its B-leg is not ended. -/
theorem c9_fork_first_theorem (pre : List B2BCall) (a b1 b2 : Session)
    (mid post : List B2BCall)
    (hpre : ∀ c ∈ pre, c.src ≠ a ∧ c.dest ≠ a) :
    handleTerminal (pre ++ B2BCall.mk a b1 :: (mid ++ B2BCall.mk a b2 :: post)) a
      = ([SipAction.endSession b1], pre ++ (mid ++ B2BCall.mk a b2 :: post)) := by
  have hfind : findCallGo (pre ++ B2BCall.mk a b1 :: (mid ++ B2BCall.mk a b2 :: post)) a
      = some (B2BCall.mk a b1) := by
    rw [findCallGo_append_no_match pre _ a hpre, findCallGo]
    exact if_pos (Or.inl rfl)
  have hrem := removeCallGo_append pre (B2BCall.mk a b1)
    (mid ++ B2BCall.mk a b2 :: post) a hpre (Or.inl rfl)
  simp only [handleTerminal, terminalActions, hfind, hrem]
  simp

/-- Witness for `c9_fork_first_theorem`: with active calls
`3 => 4`, `1 => 7`, `1 => 8`, a terminal event on A-leg `1` ends only
B-leg `7` and leaves `3 => 4` and `1 => 8` active. -/
theorem c9_fork_first_witness :
    handleTerminal [B2BCall.mk 3 4, B2BCall.mk 1 7, B2BCall.mk 1 8] 1
      = ([SipAction.endSession 7], [B2BCall.mk 3 4, B2BCall.mk 1 8]) :=
  c9_fork_first_theorem [B2BCall.mk 3 4] 1 7 8 [] [] (by decide)

/-- C10: if the first user-part match for the called AOR is an entry
with an empty instance map (reachable through the C1 defect),
`GetContacts` reports found with zero instances, and the invite
handling sends only `100 Trying` on the A-leg: no origination, no
new B2B call, and no 404 rejection. -/
theorem c10_empty_entry_theorem (reg : RegState) (calls : List B2BCall) (sess : Session)
    (called : Uri) (orig : ContactInstance → Option Session)
    (h : findInstancesGo reg called = some []) :
    getContactsGo reg called = some []
    ∧ handleInvite reg calls sess called orig
        = ([SipAction.provisionalR sess 100 "Trying"], calls) := by
  constructor
  · exact h
  · simp [handleInvite, getContactsGo, h]

/-- Witness for `c10_empty_entry_theorem` at the reachable state
`[(sip:100@a.com, ∅)]` produced by the C1 counterexample sequence. -/
theorem c10_empty_entry_witness :
    getContactsGo (execOps [] [RegOp.addOrUpdate uriA ciS, RegOp.removeContact uriB ciS]) uriB
      = some []
    ∧ handleInvite (execOps [] [RegOp.addOrUpdate uriA ciS, RegOp.removeContact uriB ciS])
        [] 1 uriB origTwo
      = ([SipAction.provisionalR 1 100 "Trying"], []) :=
  c10_empty_entry_theorem
    (execOps [] [RegOp.addOrUpdate uriA ciS, RegOp.removeContact uriB ciS])
    [] 1 uriB origTwo (by decide)
